import Mathlib

/-!
Verification development for the 10-K embedding / graph-load notebook and
the ungrounded chatbot notebook.

The notebooks are shallowly embedded as follows:
* `chunks` embeds the python list-grouping utility `chunks(xs, n)`.
* `split_text` is modelled from the spec contract of the text chunker
  (the splitter itself is a third-party library that is configured, not
  implemented, in the notebook): bounded chunks of at most `chunk_size`
  characters, consecutive chunks overlapping by `chunk_overlap`, such that
  the de-overlapped concatenation reconstructs the input and empty input
  yields no chunks.
* `create_text_embedding_entries` embeds the notebook function of the same
  name; the remote embedding call is a parameter `ge` mapping a batch of
  chunk texts to a batch of vectors.  A fallible variant
  `create_text_embedding_entriesE` models the call raising an exception.
* `GraphState` with `applyRecord` / `runRecords` / `bulkUpsert` embeds the
  parameterized Cypher upsert loop
  (UNWIND / MATCH company by cusip / MERGE document by documentId /
   SET fields / MERGE HAS relationship) under standard Cypher semantics.
* `chat_response` embeds the chatbot wrapper from the second notebook; the
  hosted completion model `agent_chain` is a parameter returning either a
  completion or an error.
-/

/-- Embeds the python utility `def chunks(xs, n=3)` which slices `xs` into
groups of `n` (after clamping `n` to at least 1): helper on the clamped
group size.  A nonempty list always contributes its head to the first
group, so the recursion consumes at least one element per step. -/
def chunksGo (n : Nat) : List α → List (List α)
  | [] => []
  | x :: xs => (x :: xs.take (n - 1)) :: chunksGo n (xs.drop (n - 1))
  termination_by l => l.length
  decreasing_by
    simp only [List.length_drop, List.length_cons]
    omega

/-- Embeds `chunks(xs, n)`: `n = max(1, n)` then slices `[xs[i:i+n] ...]`. -/
def chunks (xs : List α) (n : Nat) : List (List α) :=
  chunksGo (max 1 n) xs

/-- Modelled from the spec: the text chunker contract of the notebook
configuration of RecursiveCharacterTextSplitter (chunk size, chunk overlap),
whose implementation is a third-party library and absent from the sources.
Each chunk has at most `chunk_size` characters, consecutive chunks overlap
by `chunk_overlap` characters, and empty input yields no chunks.  The
recursion advances by `chunk_size - chunk_overlap` characters (clamped to at
least 1 so the function is total). -/
def split_text (chunk_size chunk_overlap : Nat) (xs : List Char) : List (List Char) :=
  if xs.isEmpty then []
  else if xs.length ≤ chunk_size then [xs]
  else xs.take chunk_size ::
    split_text chunk_size chunk_overlap (xs.drop (max (chunk_size - chunk_overlap) 1))
  termination_by xs.length
  decreasing_by
    simp only [List.length_drop]
    omega

/-- Removing the configured overlap between consecutive chunks: every chunk
after the first drops its first `ov` characters before concatenation. -/
def de_overlap (ov : Nat) : List (List Char) → List Char
  | [] => []
  | c :: cs => c ++ cs.flatMap (List.drop ov)

/-- One row of the staged embedding data, as built by
`create_text_embedding_entries`:
`{companyName, cusip, seqId, contextId, textEmbedding, text}`.
The vector type is a parameter `V`. -/
structure EmbeddingRecord (V : Type) where
  companyName : String
  cusip : String
  seqId : Nat
  contextId : String
  textEmbedding : V
  text : List Char
deriving DecidableEq

/-- Records appended for one batch `d` of chunks: the python inner loop
`for i in range(len(d))` over the batch, pairing `d[i]` with
`embeddings[i]` and the running sequence id.  `start` is the sequence id
given to the first record of this batch (the python counter starts at -1
and is pre-incremented, so the first record overall gets 0). -/
def embedBatchRecords (embeddings : List V) (dflt : V) (name cusip : String)
    (start : Nat) (d : List (List Char)) : List (EmbeddingRecord V) :=
  (List.range d.length).map (fun i =>
    { companyName := name
      cusip := cusip
      seqId := start + i
      contextId := name ++ Nat.repr (start + i)
      textEmbedding := embeddings.getD i dflt
      text := d.getD i [] })

/-- The outer python loop `for d in chunks(docs)`: one embedding call per
batch, records accumulated in order, sequence counter threaded through. -/
def embedLoop (ge : List (List Char) → List V) (dflt : V) (name cusip : String)
    (start : Nat) : List (List (List Char)) → List (EmbeddingRecord V)
  | [] => []
  | d :: rest =>
      embedBatchRecords (ge d) dflt name cusip start d ++
        embedLoop ge dflt name cusip (start + d.length) rest

/-- Embeds `create_text_embedding_entries(input_text, company_name, cusip)`:
split the text with the configured splitter (size 2000, overlap 15), batch
the chunks in groups of 3, embed each batch, and emit one record per chunk
with a running sequence id starting at 0. -/
def create_text_embedding_entries (ge : List (List Char) → List V) (dflt : V)
    (input_text : List Char) (company_name cusip : String) : List (EmbeddingRecord V) :=
  embedLoop ge dflt company_name cusip 0 (chunks (split_text 2000 15 input_text) 3)

/-- Fallible variant of the outer loop: the embedding call may fail, and the
python code installs no handler, so the first failure aborts the whole
computation with that error and no partial result is returned. -/
def embedLoopE (ge : List (List Char) → Except E (List V)) (dflt : V)
    (name cusip : String) (start : Nat) :
    List (List (List Char)) → Except E (List (EmbeddingRecord V))
  | [] => Except.ok []
  | d :: rest =>
      match ge d with
      | Except.error e => Except.error e
      | Except.ok embeddings =>
          match embedLoopE ge dflt name cusip (start + d.length) rest with
          | Except.error e => Except.error e
          | Except.ok rs =>
              Except.ok (embedBatchRecords embeddings dflt name cusip start d ++ rs)

/-- Fallible variant of `create_text_embedding_entries`, propagating any
error of the embedding call. -/
def create_text_embedding_entriesE (ge : List (List Char) → Except E (List V))
    (dflt : V) (input_text : List Char) (company_name cusip : String) :
    Except E (List (EmbeddingRecord V)) :=
  embedLoopE ge dflt company_name cusip 0 (chunks (split_text 2000 15 input_text) 3)

/-- A persisted Document node: its key `documentId` and the fields written
by the SET clause of the upsert query. -/
structure DocumentNode (V : Type) where
  documentId : String
  documentType : String
  seqId : Nat
  textEmbedding : V
  text : List Char
deriving DecidableEq

/-- The slice of the graph store the upsert loop touches: Company nodes
(node identity is the list index, carrying the cusip property), Document
nodes, and HAS relationships from a company node to a document key. -/
structure GraphState (V : Type) where
  companies : List String
  documents : List (DocumentNode V)
  hasRels : List (Nat × String)
deriving DecidableEq

/-- MATCH (c:Company {cusip: record.cusip}): all company node indices whose
cusip property equals the given key. -/
def matchCompanies (companies : List String) (cusip : String) : List Nat :=
  (List.range companies.length).filter (fun i => companies.getD i "" = cusip)

/-- MERGE (b:Document {documentId: record.contextId}) followed by the SET
clause: if a document with the key exists its fields are overwritten,
otherwise a new node is created with the fields set. -/
def mergeSetDoc (st : GraphState V) (r : EmbeddingRecord V) : GraphState V :=
  if st.documents.any (fun d => d.documentId = r.contextId) then
    { st with documents := st.documents.map (fun d =>
        if d.documentId = r.contextId then
          { documentId := d.documentId
            documentType := "FORM_10K_ITEM1"
            seqId := r.seqId
            textEmbedding := r.textEmbedding
            text := r.text }
        else d) }
  else
    { st with documents := st.documents ++
        [{ documentId := r.contextId
           documentType := "FORM_10K_ITEM1"
           seqId := r.seqId
           textEmbedding := r.textEmbedding
           text := r.text }] }

/-- MERGE (c)-[:HAS]->(b): create the relationship unless it already
exists (Cypher MERGE on a relationship pattern deduplicates). -/
def mergeRel (st : GraphState V) (c : Nat) (docId : String) : GraphState V :=
  if (c, docId) ∈ st.hasRels then st
  else { st with hasRels := st.hasRels ++ [(c, docId)] }

/-- One Cypher row for one record: the MATCH produced company node `c`;
run the document MERGE with SET, then the relationship MERGE. -/
def applyRow (st : GraphState V) (c : Nat) (r : EmbeddingRecord V) : GraphState V :=
  mergeRel (mergeSetDoc st r) c r.contextId

/-- Effect of one UNWIND element: the MATCH yields one row per company node
with the given cusip (no rows means the rest of the query never runs for
this record), and the MERGE / SET clauses run once per row. -/
def applyRecord (st : GraphState V) (r : EmbeddingRecord V) : GraphState V :=
  (matchCompanies st.companies r.cusip).foldl (fun s c => applyRow s c r) st

/-- One round trip of the loader: UNWIND over the batch. -/
def runRecords (st : GraphState V) (rs : List (EmbeddingRecord V)) : GraphState V :=
  rs.foldl applyRecord st

/-- Embeds the python loading loop `for d in chunks(emb_entries, 100)`:
one run_cypher round trip per batch of at most 100 records. -/
def bulkUpsert (st : GraphState V) (rs : List (EmbeddingRecord V)) : GraphState V :=
  (chunks rs 100).foldl runRecords st

/-- The batches sent by the loader, one store round trip each. -/
def writerBatches (rs : List (EmbeddingRecord V)) : List (List (EmbeddingRecord V)) :=
  chunks rs 100

/-- The keys of the Document nodes currently in the store. -/
def docIds (st : GraphState V) : List String :=
  st.documents.map (fun d => d.documentId)

/-- The fixed user-facing apology of the chat wrapper. -/
def apology : String :=
  "I\x27m sorry, there was an error retrieving the information you requested."

/-- Embeds `chat_response(input_text, history)` of the chatbot notebook:
forward the utterance to the completion model `agent_chain`; on success
return its text, on any exception return the fixed apology string.  The
history argument is received but never used by the body. -/
def chat_response (agent_chain : String → Except E String)
    (input_text : String) (history : List (String × String)) : String :=
  match agent_chain input_text with
  | Except.ok t => t
  | Except.error _ => apology

/-- A completion-model stub that raises exactly on the input
"trigger-error" and otherwise echoes its input. -/
def stubModel (s : String) : Except Unit String :=
  if s = "trigger-error" then Except.error () else Except.ok s

/-! ## Lemmas about the batching utility `chunks` -/

/-- Joining the groups produced by the helper restores the input list. -/
theorem chunksGo_flatten (n : Nat) :
    ∀ (fuel : Nat) (xs : List α), xs.length ≤ fuel → (chunksGo n xs).flatten = xs := by
  intro fuel
  induction fuel with
  | zero =>
      intro xs h
      have : xs = [] := List.length_eq_zero.mp (Nat.le_zero.mp h)
      subst this
      simp [chunksGo]
  | succ k ih =>
      intro xs h
      cases xs with
      | nil => simp [chunksGo]
      | cons x xs =>
          rw [chunksGo]
          simp only [List.flatten_cons, List.cons_append]
          rw [ih (xs.drop (n - 1)) (by simp [List.length_drop]; simp at h; omega)]
          simp [List.take_append_drop]

/-- Joining the groups produced by `chunks` restores the input list. -/
theorem chunks_flatten (xs : List α) (n : Nat) : (chunks xs n).flatten = xs :=
  chunksGo_flatten (max 1 n) xs.length xs (Nat.le_refl _)

/-- The helper produces the ceiling of length over group size many groups. -/
theorem chunksGo_length (n : Nat) (hn : 0 < n) :
    ∀ (fuel : Nat) (xs : List α), xs.length ≤ fuel →
      (chunksGo n xs).length = (xs.length + n - 1) / n := by
  intro fuel
  induction fuel with
  | zero =>
      intro xs h
      have hx : xs = [] := List.length_eq_zero.mp (Nat.le_zero.mp h)
      subst hx
      simp only [chunksGo, List.length_nil, Nat.zero_add]
      rw [Nat.div_eq_of_lt (by omega)]
  | succ k ih =>
      intro xs h
      cases xs with
      | nil =>
          simp only [chunksGo, List.length_nil, Nat.zero_add]
          rw [Nat.div_eq_of_lt (by omega)]
      | cons x xs =>
          rw [chunksGo]
          simp only [List.length_cons]
          rw [ih (xs.drop (n - 1)) (by simp [List.length_drop]; simp at h; omega)]
          simp only [List.length_drop]
          rcases Nat.lt_or_ge xs.length (n - 1) with hlt | hle
          · have h1 : xs.length - (n - 1) = 0 := by omega
            rw [h1]
            rw [Nat.div_eq_of_lt (by omega)]
            have h2 : xs.length + 1 + n - 1 = xs.length + n := by omega
            rw [h2, Nat.add_div_right _ hn, Nat.div_eq_of_lt (by omega)]
          · have h1 : xs.length - (n - 1) + n - 1 = xs.length := by omega
            rw [h1]
            have h2 : xs.length + 1 + n - 1 = xs.length + n := by omega
            rw [h2, Nat.add_div_right _ hn]

/-- Number of groups: the ceiling of the input length over the group size. -/
theorem chunks_length (xs : List α) (n : Nat) (hn : 0 < n) :
    (chunks xs n).length = (xs.length + n - 1) / n := by
  unfold chunks
  rw [Nat.max_eq_right hn]
  exact chunksGo_length n hn xs.length xs (Nat.le_refl _)

/-- Every group produced by the helper has at most the group size. -/
theorem chunksGo_sizes (n : Nat) (hn : 0 < n) :
    ∀ (fuel : Nat) (xs : List α), xs.length ≤ fuel →
      ∀ b ∈ chunksGo n xs, b.length ≤ n := by
  intro fuel
  induction fuel with
  | zero =>
      intro xs h
      have hx : xs = [] := List.length_eq_zero.mp (Nat.le_zero.mp h)
      subst hx
      simp [chunksGo]
  | succ k ih =>
      intro xs h
      cases xs with
      | nil => simp [chunksGo]
      | cons x xs =>
          rw [chunksGo]
          intro b hb
          rcases List.mem_cons.mp hb with hb | hb
          · subst hb
            simp only [List.length_cons, List.length_take]
            omega
          · exact ih (xs.drop (n - 1)) (by simp [List.length_drop]; simp at h; omega) b hb

/-- Every group produced by `chunks` has at most the requested size. -/
theorem chunks_sizes (xs : List α) (n : Nat) (hn : 0 < n) :
    ∀ b ∈ chunks xs n, b.length ≤ n := by
  unfold chunks
  rw [Nat.max_eq_right hn]
  exact chunksGo_sizes n hn xs.length xs (Nat.le_refl _)

/-! ## Lemmas about the modelled text chunker -/

/-- Empty input yields no chunks. -/
theorem split_text_nil (chunk_size chunk_overlap : Nat) :
    split_text chunk_size chunk_overlap [] = [] := by
  rw [split_text]
  simp

/-- Dropping the overlap from every chunk and concatenating yields the
input minus its first overlap-many characters. -/
theorem split_text_flatMap_drop (size ov : Nat) (hov : ov < size) :
    ∀ (fuel : Nat) (xs : List Char), xs.length ≤ fuel →
      (split_text size ov xs).flatMap (List.drop ov) = xs.drop ov := by
  have hstep : max (size - ov) 1 = size - ov := by omega
  intro fuel
  induction fuel with
  | zero =>
      intro xs h
      have hx : xs = [] := List.length_eq_zero.mp (Nat.le_zero.mp h)
      subst hx
      simp [split_text_nil]
  | succ k ih =>
      intro xs h
      rw [split_text]
      by_cases he : xs.isEmpty
      · rw [if_pos he]
        have hx : xs = [] := List.isEmpty_iff.mp he
        simp [hx]
      · rw [if_neg he]
        by_cases hs : xs.length ≤ size
        · rw [if_pos hs]
          simp
        · rw [if_neg hs]
          rw [List.flatMap_cons]
          rw [hstep]
          rw [ih (xs.drop (size - ov)) (by simp [List.length_drop]; omega)]
          rw [List.drop_take, List.drop_drop]
          rw [show size - ov + ov = ov + (size - ov) from by omega]
          rw [← List.drop_drop, List.take_append_drop]

/-- Round trip of the modelled chunker: the first chunk followed by the
de-overlapped remaining chunks reconstructs the input text exactly. -/
theorem de_overlap_split_text (size ov : Nat) (hov : ov < size) (xs : List Char) :
    de_overlap ov (split_text size ov xs) = xs := by
  rw [split_text]
  by_cases he : xs.isEmpty
  · rw [if_pos he]
    have hx : xs = [] := List.isEmpty_iff.mp he
    simp [hx, de_overlap]
  · rw [if_neg he]
    by_cases hs : xs.length ≤ size
    · rw [if_pos hs]
      simp [de_overlap]
    · rw [if_neg hs]
      rw [de_overlap]
      rw [show max (size - ov) 1 = size - ov from by omega]
      rw [split_text_flatMap_drop size ov hov (xs.drop (size - ov)).length _ (Nat.le_refl _)]
      rw [List.drop_drop]
      rw [show size - ov + ov = size from by omega]
      exact List.take_append_drop _ _

/-! ## Lemmas about the embedder -/

/-- Reading a list back at the indices 0 to its length restores the list. -/
theorem map_getD_range (l : List α) (dflt : α) :
    (List.range l.length).map (fun i => l.getD i dflt) = l := by
  induction l with
  | nil => simp
  | cons a l ih =>
      rw [List.length_cons, List.range_succ_eq_map]
      simp only [List.map_cons, List.map_map, List.getD_cons_zero]
      refine congrArg (a :: ·) ?_
      rw [show ((fun i => (a :: l).getD i dflt) ∘ Nat.succ) = (fun i => l.getD i dflt) from
        funext fun i => by simp [Nat.succ_eq_add_one]]
      exact ih

/-- One batch emits one record per chunk in the batch. -/
theorem embedBatchRecords_length (es : List V) (dflt : V) (name cusip : String)
    (start : Nat) (d : List (List Char)) :
    (embedBatchRecords es dflt name cusip start d).length = d.length := by
  simp [embedBatchRecords]

/-- The record texts of one batch are exactly the chunks of the batch. -/
theorem embedBatchRecords_map_text (es : List V) (dflt : V) (name cusip : String)
    (start : Nat) (d : List (List Char)) :
    (embedBatchRecords es dflt name cusip start d).map (fun r => r.text) = d := by
  simp only [embedBatchRecords, List.map_map]
  exact map_getD_range d []

/-- When the embedding call returns one vector per chunk, the record
vectors of one batch are exactly the returned vectors, in order. -/
theorem embedBatchRecords_map_emb (es : List V) (dflt : V) (name cusip : String)
    (start : Nat) (d : List (List Char)) (hlen : es.length = d.length) :
    (embedBatchRecords es dflt name cusip start d).map (fun r => r.textEmbedding) = es := by
  simp only [embedBatchRecords, List.map_map]
  rw [← hlen]
  exact map_getD_range es dflt

/-- The sequence ids of one batch are consecutive, starting at `start`. -/
theorem embedBatchRecords_map_seqId (es : List V) (dflt : V) (name cusip : String)
    (start : Nat) (d : List (List Char)) :
    (embedBatchRecords es dflt name cusip start d).map (fun r => r.seqId) =
      List.range' start d.length := by
  simp only [embedBatchRecords, List.map_map]
  rw [List.range'_eq_map_range]
  rfl

/-- Every record of one batch carries the company name, the cusip, and the
synthetic id formed from the company name and its own sequence id. -/
theorem embedBatchRecords_fields (es : List V) (dflt : V) (name cusip : String)
    (start : Nat) (d : List (List Char)) :
    ∀ r ∈ embedBatchRecords es dflt name cusip start d,
      r.companyName = name ∧ r.cusip = cusip ∧
      r.contextId = name ++ Nat.repr r.seqId := by
  intro r hr
  simp only [embedBatchRecords, List.mem_map, List.mem_range] at hr
  obtain ⟨i, hi, rfl⟩ := hr
  exact ⟨rfl, rfl, rfl⟩

/-- The record texts of the whole loop are the chunks, in order. -/
theorem embedLoop_map_text (ge : List (List Char) → List V) (dflt : V)
    (name cusip : String) :
    ∀ (bs : List (List (List Char))) (start : Nat),
      (embedLoop ge dflt name cusip start bs).map (fun r => r.text) = bs.flatten := by
  intro bs
  induction bs with
  | nil => intro start; simp [embedLoop]
  | cons d rest ih =>
      intro start
      simp only [embedLoop, List.map_append, List.flatten_cons]
      rw [embedBatchRecords_map_text, ih]

/-- The sequence ids of the whole loop are consecutive from `start`. -/
theorem embedLoop_map_seqId (ge : List (List Char) → List V) (dflt : V)
    (name cusip : String) :
    ∀ (bs : List (List (List Char))) (start : Nat),
      (embedLoop ge dflt name cusip start bs).map (fun r => r.seqId) =
        List.range' start bs.flatten.length := by
  intro bs
  induction bs with
  | nil => intro start; simp [embedLoop]
  | cons d rest ih =>
      intro start
      simp only [embedLoop, List.map_append, List.flatten_cons, List.length_append]
      rw [embedBatchRecords_map_seqId, ih]
      have := List.range'_append start d.length rest.flatten.length 1
      simp only [Nat.one_mul] at this
      rw [this]
      congr 1
      omega

/-- When every embedding call returns one vector per chunk, the record
vectors of the whole loop are the concatenated call results, in order. -/
theorem embedLoop_map_emb (ge : List (List Char) → List V) (dflt : V)
    (name cusip : String) (hlen : ∀ d, (ge d).length = d.length) :
    ∀ (bs : List (List (List Char))) (start : Nat),
      (embedLoop ge dflt name cusip start bs).map (fun r => r.textEmbedding) =
        bs.flatMap ge := by
  intro bs
  induction bs with
  | nil => intro start; simp [embedLoop]
  | cons d rest ih =>
      intro start
      simp only [embedLoop, List.map_append, List.flatMap_cons]
      rw [embedBatchRecords_map_emb _ _ _ _ _ _ (hlen d), ih]

/-- Every record of the whole loop carries the company name, the cusip and
the synthetic id built from the company name and its sequence id. -/
theorem embedLoop_fields (ge : List (List Char) → List V) (dflt : V)
    (name cusip : String) :
    ∀ (bs : List (List (List Char))) (start : Nat),
      ∀ r ∈ embedLoop ge dflt name cusip start bs,
        r.companyName = name ∧ r.cusip = cusip ∧
        r.contextId = name ++ Nat.repr r.seqId := by
  intro bs
  induction bs with
  | nil => intro start r hr; simp [embedLoop] at hr
  | cons d rest ih =>
      intro start r hr
      simp only [embedLoop, List.mem_append] at hr
      rcases hr with hr | hr
      · exact embedBatchRecords_fields _ _ _ _ _ _ r hr
      · exact ih _ r hr

/-! ## Lemmas about the graph upsert semantics -/

theorem mergeSetDoc_any_iff (st : GraphState V) (r : EmbeddingRecord V) :
    (st.documents.any (fun d => d.documentId = r.contextId) = true) ↔
      r.contextId ∈ docIds st := by
  simp only [docIds, List.any_eq_true, List.mem_map, decide_eq_true_eq]

theorem mergeRel_documents (st : GraphState V) (c : Nat) (docId : String) :
    (mergeRel st c docId).documents = st.documents := by
  unfold mergeRel
  split <;> rfl

theorem mergeRel_companies (st : GraphState V) (c : Nat) (docId : String) :
    (mergeRel st c docId).companies = st.companies := by
  unfold mergeRel
  split <;> rfl

theorem mergeSetDoc_companies (st : GraphState V) (r : EmbeddingRecord V) :
    (mergeSetDoc st r).companies = st.companies := by
  unfold mergeSetDoc
  split <;> rfl

theorem applyRow_companies (st : GraphState V) (c : Nat) (r : EmbeddingRecord V) :
    (applyRow st c r).companies = st.companies := by
  unfold applyRow
  rw [mergeRel_companies, mergeSetDoc_companies]

theorem mergeSetDoc_docIds_present (st : GraphState V) (r : EmbeddingRecord V)
    (h : r.contextId ∈ docIds st) :
    docIds (mergeSetDoc st r) = docIds st ∧
      (mergeSetDoc st r).documents.length = st.documents.length := by
  unfold mergeSetDoc
  rw [if_pos ((mergeSetDoc_any_iff st r).mpr h)]
  constructor
  · simp only [docIds, List.map_map]
    congr 1
    funext d
    by_cases hd : d.documentId = r.contextId <;> simp [hd]
  · simp

theorem mergeSetDoc_docIds_absent (st : GraphState V) (r : EmbeddingRecord V)
    (h : r.contextId ∉ docIds st) :
    docIds (mergeSetDoc st r) = docIds st ++ [r.contextId] ∧
      (mergeSetDoc st r).documents.length = st.documents.length + 1 := by
  unfold mergeSetDoc
  rw [if_neg (fun hc => h ((mergeSetDoc_any_iff st r).mp hc))]
  constructor
  · simp [docIds]
  · simp

theorem applyRow_docIds_present (st : GraphState V) (c : Nat) (r : EmbeddingRecord V)
    (h : r.contextId ∈ docIds st) :
    docIds (applyRow st c r) = docIds st ∧
      (applyRow st c r).documents.length = st.documents.length := by
  unfold applyRow
  have hd := mergeSetDoc_docIds_present st r h
  constructor
  · rw [docIds, mergeRel_documents, ← docIds, hd.1]
  · rw [mergeRel_documents, hd.2]

theorem applyRow_docIds_mono (st : GraphState V) (c : Nat) (r : EmbeddingRecord V) :
    ∀ x ∈ docIds st, x ∈ docIds (applyRow st c r) := by
  intro x hx
  by_cases h : r.contextId ∈ docIds st
  · rw [(applyRow_docIds_present st c r h).1]
    exact hx
  · unfold applyRow
    rw [docIds, mergeRel_documents, ← docIds, (mergeSetDoc_docIds_absent st r h).1]
    exact List.mem_append_left _ hx

theorem applyRow_mem_contextId (st : GraphState V) (c : Nat) (r : EmbeddingRecord V) :
    r.contextId ∈ docIds (applyRow st c r) := by
  by_cases h : r.contextId ∈ docIds st
  · rw [(applyRow_docIds_present st c r h).1]
    exact h
  · unfold applyRow
    rw [docIds, mergeRel_documents, ← docIds, (mergeSetDoc_docIds_absent st r h).1]
    exact List.mem_append_right _ (List.mem_singleton.mpr rfl)

theorem foldRows_docIds_present (r : EmbeddingRecord V) :
    ∀ (cs : List Nat) (st : GraphState V), r.contextId ∈ docIds st →
      docIds (cs.foldl (fun s c => applyRow s c r) st) = docIds st ∧
        (cs.foldl (fun s c => applyRow s c r) st).documents.length =
          st.documents.length := by
  intro cs
  induction cs with
  | nil => intro st h; exact ⟨rfl, rfl⟩
  | cons c cs ih =>
      intro st h
      simp only [List.foldl_cons]
      have h1 := applyRow_docIds_present st c r h
      have h2 := ih (applyRow st c r) (by rw [h1.1]; exact h)
      exact ⟨h2.1.trans h1.1, h2.2.trans h1.2⟩

theorem foldRows_companies (r : EmbeddingRecord V) :
    ∀ (cs : List Nat) (st : GraphState V),
      (cs.foldl (fun s c => applyRow s c r) st).companies = st.companies := by
  intro cs
  induction cs with
  | nil => intro st; rfl
  | cons c cs ih =>
      intro st
      simp only [List.foldl_cons]
      rw [ih, applyRow_companies]

theorem foldRows_docIds_mono (r : EmbeddingRecord V) :
    ∀ (cs : List Nat) (st : GraphState V),
      ∀ x ∈ docIds st, x ∈ docIds (cs.foldl (fun s c => applyRow s c r) st) := by
  intro cs
  induction cs with
  | nil => intro st x hx; exact hx
  | cons c cs ih =>
      intro st x hx
      simp only [List.foldl_cons]
      exact ih _ x (applyRow_docIds_mono st c r x hx)

theorem applyRecord_companies (st : GraphState V) (r : EmbeddingRecord V) :
    (applyRecord st r).companies = st.companies := by
  unfold applyRecord
  exact foldRows_companies r _ st

theorem applyRecord_docIds_mono (st : GraphState V) (r : EmbeddingRecord V) :
    ∀ x ∈ docIds st, x ∈ docIds (applyRecord st r) := by
  unfold applyRecord
  exact foldRows_docIds_mono r _ st

theorem applyRecord_present (st : GraphState V) (r : EmbeddingRecord V)
    (h : matchCompanies st.companies r.cusip ≠ []) :
    r.contextId ∈ docIds (applyRecord st r) := by
  unfold applyRecord
  rcases hm : matchCompanies st.companies r.cusip with _ | ⟨c, cs⟩
  · exact absurd hm h
  · simp only [List.foldl_cons]
    exact foldRows_docIds_mono r cs _ _ (applyRow_mem_contextId st c r)

theorem applyRecord_preserve (st : GraphState V) (r : EmbeddingRecord V)
    (h : r.contextId ∈ docIds st ∨ matchCompanies st.companies r.cusip = []) :
    docIds (applyRecord st r) = docIds st ∧
      (applyRecord st r).documents.length = st.documents.length := by
  unfold applyRecord
  rcases h with h | h
  · exact foldRows_docIds_present r _ st h
  · rw [h]
    exact ⟨rfl, rfl⟩

theorem applyRecord_no_match (st : GraphState V) (r : EmbeddingRecord V)
    (h : matchCompanies st.companies r.cusip = []) :
    applyRecord st r = st := by
  unfold applyRecord
  rw [h]
  rfl

theorem runRecords_companies (rs : List (EmbeddingRecord V)) :
    ∀ (st : GraphState V), (runRecords st rs).companies = st.companies := by
  induction rs with
  | nil => intro st; rfl
  | cons r rs ih =>
      intro st
      unfold runRecords at *
      simp only [List.foldl_cons]
      rw [ih, applyRecord_companies]

theorem runRecords_docIds_mono (rs : List (EmbeddingRecord V)) :
    ∀ (st : GraphState V), ∀ x ∈ docIds st, x ∈ docIds (runRecords st rs) := by
  induction rs with
  | nil => intro st x hx; exact hx
  | cons r rs ih =>
      intro st x hx
      unfold runRecords at *
      simp only [List.foldl_cons]
      exact ih _ x (applyRecord_docIds_mono st r x hx)

theorem runRecords_covers (rs : List (EmbeddingRecord V)) :
    ∀ (st : GraphState V), ∀ r ∈ rs,
      matchCompanies st.companies r.cusip ≠ [] →
        r.contextId ∈ docIds (runRecords st rs) := by
  induction rs with
  | nil => intro st r hr; simp at hr
  | cons q rs ih =>
      intro st r hr hm
      rcases List.mem_cons.mp hr with hr | hr
      · subst hr
        unfold runRecords
        simp only [List.foldl_cons]
        exact runRecords_docIds_mono rs _ _ (applyRecord_present st r hm)
      · unfold runRecords
        simp only [List.foldl_cons]
        refine ih (applyRecord st q) r hr ?_
        rw [applyRecord_companies]
        exact hm

theorem runRecords_preserve (rs : List (EmbeddingRecord V)) :
    ∀ (st : GraphState V),
      (∀ r ∈ rs, matchCompanies st.companies r.cusip ≠ [] →
        r.contextId ∈ docIds st) →
      docIds (runRecords st rs) = docIds st ∧
        (runRecords st rs).documents.length = st.documents.length := by
  induction rs with
  | nil => intro st h; exact ⟨rfl, rfl⟩
  | cons r rs ih =>
      intro st h
      unfold runRecords at *
      simp only [List.foldl_cons]
      have hstep : docIds (applyRecord st r) = docIds st ∧
          (applyRecord st r).documents.length = st.documents.length := by
        by_cases hm : matchCompanies st.companies r.cusip = []
        · exact applyRecord_preserve st r (Or.inr hm)
        · exact applyRecord_preserve st r (Or.inl (h r (List.mem_cons_self r rs) hm))
      have hrest := ih (applyRecord st r) (by
        intro q hq hm
        rw [hstep.1]
        refine h q (List.mem_cons_of_mem r hq) ?_
        rw [applyRecord_companies] at hm
        exact hm)
      exact ⟨hrest.1.trans hstep.1, hrest.2.trans hstep.2⟩

theorem bulkUpsert_eq_runRecords (st : GraphState V) (rs : List (EmbeddingRecord V)) :
    bulkUpsert st rs = runRecords st rs := by
  have h := List.foldl_flatten applyRecord st (chunks rs 100)
  rw [chunks_flatten] at h
  show (chunks rs 100).foldl runRecords st = rs.foldl applyRecord st
  rw [h]
  rfl

theorem cte_nonempty_mem_contextId_zero (ge : List (List Char) → List V) (dflt : V)
    (t : List Char) (name cusip : String)
    (h : create_text_embedding_entries ge dflt t name cusip ≠ []) :
    (name ++ Nat.repr 0) ∈
      (create_text_embedding_entries ge dflt t name cusip).map (fun r => r.contextId) := by
  have hs := embedLoop_map_seqId ge dflt name cusip (chunks (split_text 2000 15 t) 3) 0
  rw [create_text_embedding_entries] at *
  have hlen : (chunks (split_text 2000 15 t) 3).flatten.length ≠ 0 := by
    intro h0
    rw [h0] at hs
    have := congrArg List.length hs
    simp at this
    exact h this
  have h0 : 0 ∈ (embedLoop ge dflt name cusip 0
      (chunks (split_text 2000 15 t) 3)).map (fun r => r.seqId) := by
    rw [hs]
    rw [List.range'_eq_map_range]
    simp only [List.mem_map, List.mem_range]
    exact ⟨0, by omega, rfl⟩
  simp only [List.mem_map] at h0 ⊢
  obtain ⟨r, hr, hseq⟩ := h0
  refine ⟨r, hr, ?_⟩
  have hf := embedLoop_fields ge dflt name cusip _ 0 r hr
  rw [hf.2.2, hseq]

theorem embedLoopE_error (ge : List (List Char) → Except E (List V)) (dflt : V)
    (name cusip : String) :
    ∀ (bs : List (List (List Char))) (start : Nat) (b : List (List Char)) (e : E),
      b ∈ bs → ge b = Except.error e →
        ∃ e2, embedLoopE ge dflt name cusip start bs = Except.error e2 := by
  intro bs
  induction bs with
  | nil => intro start b e hb; simp at hb
  | cons d rest ih =>
      intro start b e hb he
      rcases List.mem_cons.mp hb with rfl | hb
      · exact ⟨e, by simp only [embedLoopE]; rw [he]⟩
      · cases hm : ge d with
        | error e3 => exact ⟨e3, by simp only [embedLoopE]; rw [hm]⟩
        | ok es =>
            obtain ⟨e2, h2⟩ := ih (start + d.length) b e hb he
            exact ⟨e2, by simp only [embedLoopE]; rw [hm, h2]⟩

/-- C2: re-running the bulk upsert writer on an unchanged record sequence is
idempotent with respect to the Document node count: after the second run the
number of Document nodes equals the number after the first run. -/
theorem claim_C2_writer_idempotent_doc_count (V : Type) (st : GraphState V)
    (rs : List (EmbeddingRecord V)) :
    (bulkUpsert (bulkUpsert st rs) rs).documents.length =
      (bulkUpsert st rs).documents.length := by
  rw [bulkUpsert_eq_runRecords, bulkUpsert_eq_runRecords]
  refine (runRecords_preserve rs (runRecords st rs) ?_).2
  intro r hr hm
  refine runRecords_covers rs st r hr ?_
  rw [runRecords_companies] at hm
  exact hm

/-- C4: the bulk upsert writer issues exactly the ceiling of N over 100 store
round trips, each batch has at most 100 records, and the concatenation of the
batches in order equals the input sequence. -/
theorem claim_C4_writer_batching (V : Type) (rs : List (EmbeddingRecord V)) :
    (writerBatches rs).length = (rs.length + 100 - 1) / 100 ∧
    (∀ b ∈ writerBatches rs, b.length ≤ 100) ∧
    (writerBatches rs).flatten = rs ∧
    (∀ st : GraphState V, bulkUpsert st rs = (writerBatches rs).foldl runRecords st) :=
  ⟨chunks_length rs 100 (by omega),
   chunks_sizes rs 100 (by omega),
   chunks_flatten rs 100,
   fun st => rfl⟩

/-- C5: chat_response returns the completion text verbatim on success,
returns the fixed apology string instead of propagating when the model call
raises, and on the stub raising at input "trigger-error" it returns the
apology string. -/
theorem claim_C5_chat_error_handling :
    (∀ (E : Type) (agent_chain : String → Except E String) (input_text : String)
        (history : List (String × String)) (t : String),
        agent_chain input_text = Except.ok t →
          chat_response agent_chain input_text history = t) ∧
    (∀ (E : Type) (agent_chain : String → Except E String) (input_text : String)
        (history : List (String × String)) (e : E),
        agent_chain input_text = Except.error e →
          chat_response agent_chain input_text history = apology) ∧
    (∀ history, chat_response stubModel "trigger-error" history = apology) := by
  refine ⟨?_, ?_, ?_⟩
  · intro E agent_chain input_text history t h
    unfold chat_response
    rw [h]
  · intro E agent_chain input_text history e h
    unfold chat_response
    rw [h]
  · intro history
    unfold chat_response stubModel
    simp

theorem claim_C5_witness :
    chat_response (fun s => (Except.ok (s ++ "?") : Except Unit String)) "hi" [] = "hi?" ∧
    chat_response stubModel "trigger-error" [] = apology :=
  ⟨claim_C5_chat_error_handling.1 Unit _ "hi" [] "hi?" rfl,
   claim_C5_chat_error_handling.2.2 []⟩

/-- C6: with the configured chunk size 2000 and overlap 15, concatenating
the chunker output with the overlap removed between consecutive chunks
reproduces the input text exactly, and empty input yields no chunks. -/
theorem claim_C6_chunker_round_trip :
    (∀ xs : List Char, de_overlap 15 (split_text 2000 15 xs) = xs) ∧
    split_text 2000 15 [] = [] :=
  ⟨fun xs => de_overlap_split_text 2000 15 (by omega) xs, split_text_nil 2000 15⟩

/-- C9: the result of chat_response does not depend on the history argument:
any two histories give the same answer for the same input, since the body
forwards only the input text to the model. -/
theorem claim_C9_history_independent (E : Type) (agent_chain : String → Except E String)
    (t : String) (h1 h2 : List (String × String)) :
    chat_response agent_chain t h1 = chat_response agent_chain t h2 := rfl

/-- C10: a record whose cusip matches no Company node leaves the store
completely unchanged: the MATCH yields no rows, so the document MERGE and
the relationship MERGE never run for that record. -/
theorem claim_C10_unmatched_company_dropped (V : Type) (st : GraphState V)
    (r : EmbeddingRecord V) (h : matchCompanies st.companies r.cusip = []) :
    applyRecord st r = st :=
  applyRecord_no_match st r h

theorem claim_C10_witness :
    matchCompanies (GraphState.mk ["ABC"] ([] : List (DocumentNode Nat)) []).companies
      "XYZ" = [] ∧
    applyRecord (GraphState.mk ["ABC"] ([] : List (DocumentNode Nat)) [])
        (EmbeddingRecord.mk "Acme" "XYZ" 0 "Acme0" (0 : Nat) []) =
      GraphState.mk ["ABC"] [] [] :=
  ⟨by decide, claim_C10_unmatched_company_dropped Nat _ _ (by decide)⟩

theorem split_text_singleton (c : Char) : split_text 2000 15 [c] = [[c]] := by
  rw [split_text]
  simp

theorem chunks_split_singleton (c : Char) :
    chunks (split_text 2000 15 [c]) 3 = [[[c]]] := by
  rw [split_text_singleton]
  simp [chunks, chunksGo]

theorem cte_singleton_eval :
    create_text_embedding_entries (fun d => d.map (fun _ => (0 : Nat))) 0 ['a'] "A" "K" =
      [EmbeddingRecord.mk "A" "K" 0 ("A" ++ Nat.repr 0) 0 ['a']] := by
  unfold create_text_embedding_entries
  rw [chunks_split_singleton]
  decide

theorem cte_singleton_eval2 :
    create_text_embedding_entries (fun d => d.map (fun _ => (0 : Nat))) 0 ['b'] "A" "K2" =
      [EmbeddingRecord.mk "A" "K2" 0 ("A" ++ Nat.repr 0) 0 ['b']] := by
  unfold create_text_embedding_entries
  rw [chunks_split_singleton]
  decide

/-- C1: for a filing whose chunker output has k chunks, the embedder returns
exactly k records, their sequence ids are exactly 0 to k-1 in increasing
order with no gaps, record i carries chunk i as its text, and the vectors
are exactly the ones returned by the embedding calls, in order. -/
theorem claim_C1_embedder_records (V : Type) (ge : List (List Char) → List V)
    (dflt : V) (t : List Char) (name cusip : String)
    (hlen : ∀ d, (ge d).length = d.length) :
    (create_text_embedding_entries ge dflt t name cusip).length =
      (split_text 2000 15 t).length ∧
    (create_text_embedding_entries ge dflt t name cusip).map (fun r => r.seqId) =
      List.range (split_text 2000 15 t).length ∧
    (create_text_embedding_entries ge dflt t name cusip).map (fun r => r.text) =
      split_text 2000 15 t ∧
    (create_text_embedding_entries ge dflt t name cusip).map (fun r => r.textEmbedding) =
      (chunks (split_text 2000 15 t) 3).flatMap ge := by
  unfold create_text_embedding_entries
  have htext := embedLoop_map_text ge dflt name cusip (chunks (split_text 2000 15 t) 3) 0
  have hseq := embedLoop_map_seqId ge dflt name cusip (chunks (split_text 2000 15 t) 3) 0
  have hemb := embedLoop_map_emb ge dflt name cusip hlen (chunks (split_text 2000 15 t) 3) 0
  rw [chunks_flatten] at htext hseq
  refine ⟨?_, ?_, htext, hemb⟩
  · have hl := congrArg List.length htext
    simpa using hl
  · rw [hseq, List.range_eq_range']

theorem claim_C1_witness :
    (create_text_embedding_entries (fun d => d.map (fun _ => (0 : Nat))) 0 ['a'] "A" "K").length =
      (split_text 2000 15 ['a']).length ∧
    (create_text_embedding_entries (fun d => d.map (fun _ => (0 : Nat))) 0 ['a'] "A" "K").map
        (fun r => r.seqId) = List.range (split_text 2000 15 ['a']).length ∧
    (create_text_embedding_entries (fun d => d.map (fun _ => (0 : Nat))) 0 ['a'] "A" "K").map
        (fun r => r.text) = split_text 2000 15 ['a'] ∧
    (create_text_embedding_entries (fun d => d.map (fun _ => (0 : Nat))) 0 ['a'] "A" "K").map
        (fun r => r.textEmbedding) =
      (chunks (split_text 2000 15 ['a']) 3).flatMap (fun d => d.map (fun _ => (0 : Nat))) :=
  claim_C1_embedder_records Nat _ 0 ['a'] "A" "K" (fun d => by simp)

/-- C7: every record carries the synthetic id formed by concatenating the
company name with the decimal sequence id, and two filings embedded under
the same company name (each producing at least one record) yield colliding
synthetic ids, so the ids are unique across records only if company names
are unique per filing. -/
theorem claim_C7_synthetic_ids (V : Type) (ge ge2 : List (List Char) → List V)
    (dflt dflt2 : V) (t t2 : List Char) (name cusip cusip2 : String) :
    (∀ r ∈ create_text_embedding_entries ge dflt t name cusip,
        r.contextId = name ++ Nat.repr r.seqId) ∧
    (create_text_embedding_entries ge dflt t name cusip ≠ [] →
      create_text_embedding_entries ge2 dflt2 t2 name cusip2 ≠ [] →
      ¬ ((create_text_embedding_entries ge dflt t name cusip ++
            create_text_embedding_entries ge2 dflt2 t2 name cusip2).map
              (fun r => r.contextId)).Nodup) := by
  constructor
  · intro r hr
    exact (embedLoop_fields ge dflt name cusip _ 0 r hr).2.2
  · intro h1 h2 hnd
    rw [List.map_append, List.nodup_append] at hnd
    exact absurd (cte_nonempty_mem_contextId_zero ge2 dflt2 t2 name cusip2 h2)
      (hnd.2.2 (cte_nonempty_mem_contextId_zero ge dflt t name cusip h1))

theorem claim_C7_witness :
    (EmbeddingRecord.mk "A" "K" 0 ("A" ++ Nat.repr 0) (0 : Nat) ['a']).contextId =
      "A" ++ Nat.repr (EmbeddingRecord.mk "A" "K" 0 ("A" ++ Nat.repr 0) (0 : Nat) ['a']).seqId ∧
    ¬ ((create_text_embedding_entries (fun d => d.map (fun _ => (0 : Nat))) 0 ['a'] "A" "K" ++
          create_text_embedding_entries (fun d => d.map (fun _ => (0 : Nat))) 0 ['b'] "A" "K2").map
            (fun r => r.contextId)).Nodup :=
  ⟨(claim_C7_synthetic_ids Nat (fun d => d.map (fun _ => (0 : Nat)))
        (fun d => d.map (fun _ => (0 : Nat))) 0 0 ['a'] ['b'] "A" "K" "K2").1 _
      (by rw [cte_singleton_eval]; exact List.mem_singleton.mpr rfl),
   (claim_C7_synthetic_ids Nat (fun d => d.map (fun _ => (0 : Nat)))
        (fun d => d.map (fun _ => (0 : Nat))) 0 0 ['a'] ['b'] "A" "K" "K2").2
      (by rw [cte_singleton_eval]; simp)
      (by rw [cte_singleton_eval2]; simp)⟩

/-- C8: the embedding pipeline performs no error handling: if the embedding
call fails on any batch of the filing, the fallible embedder aborts with an
error and returns no partial result. -/
theorem claim_C8_no_error_handling (V E : Type)
    (ge : List (List Char) → Except E (List V)) (dflt : V) (t : List Char)
    (name cusip : String) (b : List (List Char)) (e : E)
    (hb : b ∈ chunks (split_text 2000 15 t) 3) (he : ge b = Except.error e) :
    ∃ e2, create_text_embedding_entriesE ge dflt t name cusip = Except.error e2 := by
  unfold create_text_embedding_entriesE
  exact embedLoopE_error ge dflt name cusip _ 0 b e hb he

theorem claim_C8_witness :
    [['a']] ∈ chunks (split_text 2000 15 ['a']) 3 ∧
    (fun _ : List (List Char) => (Except.error "quota" : Except String (List Nat))) [['a']] =
      Except.error "quota" ∧
    ∃ e2, create_text_embedding_entriesE
        (fun _ : List (List Char) => (Except.error "quota" : Except String (List Nat)))
        (0 : Nat) ['a'] "A" "K" = Except.error e2 :=
  ⟨by rw [chunks_split_singleton]; exact List.mem_singleton.mpr rfl,
   rfl,
   claim_C8_no_error_handling Nat String _ 0 ['a'] "A" "K" [['a']] "quota"
     (by rw [chunks_split_singleton]; exact List.mem_singleton.mpr rfl) rfl⟩

theorem split_text_5000 (t : List Char) (hlen : t.length = 5000) :
    split_text 2000 15 t =
      [t.take 2000, (t.drop 1985).take 2000, (t.drop 1985).drop 1985] := by
  have h1 : (t.drop 1985).length = 3015 := by simp [hlen]
  have h2 : ((t.drop 1985).drop 1985).length = 1030 := by simp [hlen]
  have hmax : max (2000 - 15) 1 = 1985 := by decide
  rw [split_text]
  rw [if_neg (by rw [List.isEmpty_iff_length_eq_zero]; omega)]
  rw [if_neg (by omega)]
  rw [hmax]
  rw [split_text]
  rw [if_neg (by rw [List.isEmpty_iff_length_eq_zero]; omega)]
  rw [if_neg (by omega)]
  rw [hmax]
  rw [split_text]
  rw [if_neg (by rw [List.isEmpty_iff_length_eq_zero]; omega)]
  rw [if_pos (by omega)]

theorem chunks_three (a b c : List Char) : chunks [a, b, c] 3 = [[a, b, c]] := by
  simp [chunks, chunksGo]

theorem cte_5000_eval (V : Type) (ge : List (List Char) → List V) (dflt : V)
    (t : List Char) (hlen : t.length = 5000) :
    create_text_embedding_entries ge dflt t "Acme" "C1" =
      [EmbeddingRecord.mk "Acme" "C1" 0 "Acme0"
          ((ge [t.take 2000, (t.drop 1985).take 2000, (t.drop 1985).drop 1985]).getD 0 dflt)
          (t.take 2000),
       EmbeddingRecord.mk "Acme" "C1" 1 "Acme1"
          ((ge [t.take 2000, (t.drop 1985).take 2000, (t.drop 1985).drop 1985]).getD 1 dflt)
          ((t.drop 1985).take 2000),
       EmbeddingRecord.mk "Acme" "C1" 2 "Acme2"
          ((ge [t.take 2000, (t.drop 1985).take 2000, (t.drop 1985).drop 1985]).getD 2 dflt)
          ((t.drop 1985).drop 1985)] := by
  unfold create_text_embedding_entries
  rw [split_text_5000 t hlen, chunks_three]
  simp only [embedLoop, embedBatchRecords, List.length_cons, List.length_nil,
    List.range_succ, List.range_zero, List.map_append, List.map_cons, List.map_nil,
    List.nil_append, List.cons_append, List.append_nil, List.getD_cons_zero,
    List.getD_cons_succ]
  norm_num
  refine ⟨by decide, by decide, by decide⟩

theorem runRecords_acme_eval (V : Type) (v0 v1 v2 : V) (c0 c1 c2 : List Char) :
    runRecords (GraphState.mk ["C1"] [] [])
        [EmbeddingRecord.mk "Acme" "C1" 0 "Acme0" v0 c0,
         EmbeddingRecord.mk "Acme" "C1" 1 "Acme1" v1 c1,
         EmbeddingRecord.mk "Acme" "C1" 2 "Acme2" v2 c2] =
      GraphState.mk ["C1"]
        [DocumentNode.mk "Acme0" "FORM_10K_ITEM1" 0 v0 c0,
         DocumentNode.mk "Acme1" "FORM_10K_ITEM1" 1 v1 c1,
         DocumentNode.mk "Acme2" "FORM_10K_ITEM1" 2 v2 c2]
        [(0, "Acme0"), (0, "Acme1"), (0, "Acme2")] := by
  have hmatch : matchCompanies ["C1"] "C1" = [0] := by decide
  simp [runRecords, applyRecord, applyRow, mergeSetDoc, mergeRel, hmatch]

/-- C3: for a filing with company key "C1", company name "Acme" and a
5000-character business description, the configured chunker yields 3 chunks,
the records carry the synthetic ids "Acme0", "Acme1", "Acme2", and the
upsert loop persists exactly 3 Document nodes with those keys, each linked
by a HAS relationship to the Company node with cusip "C1". -/
theorem claim_C3_end_to_end (V : Type) (ge : List (List Char) → List V) (dflt : V)
    (t : List Char) (hlen : t.length = 5000) :
    (split_text 2000 15 t).length = 3 ∧
    (create_text_embedding_entries ge dflt t "Acme" "C1").map (fun r => r.contextId) =
      ["Acme0", "Acme1", "Acme2"] ∧
    docIds (bulkUpsert (GraphState.mk ["C1"] [] [])
        (create_text_embedding_entries ge dflt t "Acme" "C1")) =
      ["Acme0", "Acme1", "Acme2"] ∧
    (bulkUpsert (GraphState.mk ["C1"] [] [])
        (create_text_embedding_entries ge dflt t "Acme" "C1")).documents.length = 3 ∧
    (bulkUpsert (GraphState.mk ["C1"] [] [])
        (create_text_embedding_entries ge dflt t "Acme" "C1")).hasRels =
      [(0, "Acme0"), (0, "Acme1"), (0, "Acme2")] := by
  have hs := split_text_5000 t hlen
  have hr := cte_5000_eval V ge dflt t hlen
  refine ⟨by rw [hs]; rfl, by rw [hr]; rfl, ?_, ?_, ?_⟩ <;>
    rw [bulkUpsert_eq_runRecords, hr, runRecords_acme_eval] <;> rfl

theorem claim_C3_witness :
    (List.replicate 5000 'a').length = 5000 ∧
    (split_text 2000 15 (List.replicate 5000 'a')).length = 3 ∧
    (create_text_embedding_entries (fun d => d.map (fun _ => (0 : Nat))) 0
        (List.replicate 5000 'a') "Acme" "C1").map (fun r => r.contextId) =
      ["Acme0", "Acme1", "Acme2"] ∧
    docIds (bulkUpsert (GraphState.mk ["C1"] [] [])
        (create_text_embedding_entries (fun d => d.map (fun _ => (0 : Nat))) 0
          (List.replicate 5000 'a') "Acme" "C1")) = ["Acme0", "Acme1", "Acme2"] ∧
    (bulkUpsert (GraphState.mk ["C1"] [] [])
        (create_text_embedding_entries (fun d => d.map (fun _ => (0 : Nat))) 0
          (List.replicate 5000 'a') "Acme" "C1")).documents.length = 3 ∧
    (bulkUpsert (GraphState.mk ["C1"] [] [])
        (create_text_embedding_entries (fun d => d.map (fun _ => (0 : Nat))) 0
          (List.replicate 5000 'a') "Acme" "C1")).hasRels =
      [(0, "Acme0"), (0, "Acme1"), (0, "Acme2")] :=
  ⟨List.length_replicate 5000 'a',
   claim_C3_end_to_end Nat (fun d => d.map (fun _ => (0 : Nat))) 0
     (List.replicate 5000 'a') (List.length_replicate 5000 'a')⟩
